import Mathlib

/-!
Verification of the shard-orchestration core of the kroma-network/sp1 repository.

The development shallowly embeds:
* the opcode selector derivation `OpcodeSelectors::populate`
  (src/core/src/cpu/opcode_cols.rs);
* the worker phase-1 shard materializer `worker_phase1`
  (src/examples/fibonacci/script/src/worker/mod.rs);
* the checkpoint generator `generate_checkpoints`
  (src/examples/fibonacci/script/src/operator/mod.rs).

Machine integers (`u32` counters) are embedded as `Nat` with explicit reduction
modulo `2 ^ 32` wherever the source performs wrapping arithmetic.  Panics and
`unreachable!` arms are embedded as `Except.error`; functions that the source
writes as infallible stay total.
-/

namespace SP1

/-- Modelled from the spec: the `Opcode` enum of `sp1_core::runtime` is not under `src/`.
§4.4 describes the recognized instruction families of the RV32IM instruction set:
arithmetic/logic (including multiply and divide), loads, stores, branches, the jumps
`JAL`/`JALR`, and a no-op; `AUIPC`, `ECALL` and `EBREAK` are the remaining decoded
opcodes (the selector struct in src/core/src/cpu/opcode_cols.rs carries an `auipc` field). -/
inductive Opcode
  | ADD | SUB | XOR | OR | AND | SLL | SRL | SRA | SLT | SLTU
  | MUL | MULH | MULHU | MULHSU | DIV | DIVU | REM | REMU
  | LB | LBU | LH | LHU | LW
  | SB | SH | SW
  | BEQ | BNE | BLT | BGE | BLTU | BGEU
  | JAL | JALR | AUIPC
  | ECALL | EBREAK | UNIMP
  deriving DecidableEq, Repr

/-- The fields of `sp1_core::runtime::Instruction` read by `OpcodeSelectors::populate`:
the opcode, the destination register `op_a`, the operands, and the immediate flags. -/
structure Instruction where
  opcode : Opcode
  op_a : Nat
  op_b : Nat
  op_c : Nat
  imm_b : Bool
  imm_c : Bool
  deriving DecidableEq, Repr

/-- Modelled from the spec: `Instruction::is_alu_instruction` (sp1_core, not under `src/`).
§4.4 places add/sub/bitwise/shift/compare together with the multiply and divide opcodes
in the arithmetic/logic family. -/
def Instruction.is_alu_instruction (i : Instruction) : Bool :=
  match i.opcode with
  | .ADD | .SUB | .XOR | .OR | .AND | .SLL | .SRL | .SRA | .SLT | .SLTU
  | .MUL | .MULH | .MULHU | .MULHSU | .DIV | .DIVU | .REM | .REMU => true
  | _ => false

/-- Modelled from the spec: `Instruction::is_load_instruction` (sp1_core, not under `src/`);
the load family with its width/signedness sub-classification (§4.4), matching the load
arms of `populate`. -/
def Instruction.is_load_instruction (i : Instruction) : Bool :=
  match i.opcode with
  | .LB | .LBU | .LH | .LHU | .LW => true
  | _ => false

/-- Modelled from the spec: `Instruction::is_store_instruction` (sp1_core, not under `src/`);
the store family (§4.4), matching the store arms of `populate`. -/
def Instruction.is_store_instruction (i : Instruction) : Bool :=
  match i.opcode with
  | .SB | .SH | .SW => true
  | _ => false

/-- Modelled from the spec: `Instruction::is_branch_instruction` (sp1_core, not under `src/`);
the conditional-branch family (§4.4). -/
def Instruction.is_branch_instruction (i : Instruction) : Bool :=
  match i.opcode with
  | .BEQ | .BNE | .BLT | .BGE | .BLTU | .BGEU => true
  | _ => false

/-- `OpcodeSelectors<T>` (src/core/src/cpu/opcode_cols.rs, lines 10-46) with the field
type instantiated at `Bool` (`F::one()` is `true`, the `Default` zero is `false`). -/
structure OpcodeSelectors where
  imm_b : Bool := false
  imm_c : Bool := false
  add_op : Bool := false
  sub_op : Bool := false
  mul_op : Bool := false
  div_op : Bool := false
  shift_op : Bool := false
  bitwise_op : Bool := false
  lt_op : Bool := false
  is_load : Bool := false
  is_store : Bool := false
  is_word : Bool := false
  is_half : Bool := false
  is_byte : Bool := false
  is_signed : Bool := false
  jalr : Bool := false
  jal : Bool := false
  auipc : Bool := false
  branch_op : Bool := false
  noop : Bool := false
  reg_0_write : Bool := false
  deriving DecidableEq, Repr

/-- `OpcodeSelectors::populate` (src/core/src/cpu/opcode_cols.rs, lines 49-131).
The `panic!` in the ALU arm and the `unreachable!` arms of the load/store matches are
embedded as `Except.error`. -/
def OpcodeSelectors.populate (self : OpcodeSelectors) (instruction : Instruction) :
    Except String OpcodeSelectors :=
  let s := { self with imm_b := instruction.imm_b, imm_c := instruction.imm_c }
  let classified : Except String OpcodeSelectors :=
    if instruction.is_alu_instruction then
      match instruction.opcode with
      | .ADD => .ok { s with add_op := true }
      | .SUB => .ok { s with sub_op := true }
      | .XOR | .OR | .AND => .ok { s with bitwise_op := true }
      | .SLL | .SRL | .SRA => .ok { s with shift_op := true }
      | .SLT | .SLTU => .ok { s with lt_op := true }
      | .MUL | .MULH | .MULHU | .MULHSU => .ok s
      | _ => .error "unexpected opcode in register instruction table processing"
    else if instruction.is_load_instruction then
      let s := { s with is_load := true }
      match instruction.opcode with
      | .LB => .ok { s with is_byte := true, is_signed := true }
      | .LBU => .ok { s with is_byte := true }
      | .LHU => .ok { s with is_half := true }
      | .LH => .ok { s with is_half := true, is_signed := true }
      | .LW => .ok { s with is_word := true }
      | _ => .error "unreachable"
    else if instruction.is_store_instruction then
      let s := { s with is_store := true }
      match instruction.opcode with
      | .SB => .ok { s with is_byte := true }
      | .SH => .ok { s with is_half := true }
      | .SW => .ok { s with is_word := true }
      | _ => .error "unreachable"
    else if instruction.is_branch_instruction then
      .ok { s with branch_op := true }
    else if instruction.opcode = .JAL then
      .ok { s with jal := true }
    else if instruction.opcode = .JALR then
      .ok { s with jalr := true }
    else if instruction.opcode = .UNIMP then
      .ok { s with noop := true }
    else
      .ok s
  match classified with
  | .error e => .error e
  | .ok s =>
    if instruction.op_a = 0 then
      if ¬(s.branch_op = true ∨ s.is_store = true ∨ s.noop = true) then
        .ok { s with reg_0_write := true }
      else
        .ok s
    else
      .ok s

/-- The recognized categories of §4.4: ALU, load, store, branch, `JAL`, `JALR`, no-op. -/
def Instruction.inRecognizedCategory (i : Instruction) : Prop :=
  i.is_alu_instruction = true ∨ i.is_load_instruction = true ∨
  i.is_store_instruction = true ∨ i.is_branch_instruction = true ∨
  i.opcode = .JAL ∨ i.opcode = .JALR ∨ i.opcode = .UNIMP

instance (i : Instruction) : Decidable i.inRecognizedCategory := by
  unfold Instruction.inRecognizedCategory
  infer_instance

/-- The ALU opcodes the `populate` match recognizes (its non-`panic!` arms). -/
def Opcode.aluRecognized (op : Opcode) : Bool :=
  match op with
  | .ADD | .SUB | .XOR | .OR | .AND | .SLL | .SRL | .SRA | .SLT | .SLTU
  | .MUL | .MULH | .MULHU | .MULHSU => true
  | _ => false

/-- The multiply opcodes. -/
def Opcode.isMultiply (op : Opcode) : Bool :=
  match op with
  | .MUL | .MULH | .MULHU | .MULHSU => true
  | _ => false

/-- The divide/remainder opcodes. -/
def Opcode.isDivide (op : Opcode) : Bool :=
  match op with
  | .DIV | .DIVU | .REM | .REMU => true
  | _ => false

/-- No category selector flag of §4.4 is set: neither a table selector, nor a memory
selector, nor a control-flow selector, nor the no-op flag. -/
def OpcodeSelectors.noCategoryFlag (s : OpcodeSelectors) : Prop :=
  s.add_op = false ∧ s.sub_op = false ∧ s.mul_op = false ∧ s.div_op = false ∧
  s.shift_op = false ∧ s.bitwise_op = false ∧ s.lt_op = false ∧
  s.is_load = false ∧ s.is_store = false ∧
  s.jal = false ∧ s.jalr = false ∧ s.auipc = false ∧
  s.branch_op = false ∧ s.noop = false

instance (s : OpcodeSelectors) : Decidable s.noCategoryFlag := by
  unfold OpcodeSelectors.noCategoryFlag
  infer_instance

/-- A concrete `AUIPC` instruction. -/
def instAUIPC : Instruction :=
  { opcode := .AUIPC, op_a := 5, op_b := 0, op_c := 64, imm_b := false, imm_c := true }

/-- A concrete `DIV` instruction. -/
def instDIV : Instruction :=
  { opcode := .DIV, op_a := 3, op_b := 4, op_c := 5, imm_b := false, imm_c := false }

/-- A concrete `MUL` instruction. -/
def instMUL : Instruction :=
  { opcode := .MUL, op_a := 3, op_b := 4, op_c := 5, imm_b := false, imm_c := false }

/-- A concrete `ADD` instruction writing to register 0. -/
def instADD0 : Instruction :=
  { opcode := .ADD, op_a := 0, op_b := 4, op_c := 5, imm_b := false, imm_c := true }

/-! ## Worker phase 1 (src/examples/fibonacci/script/src/worker/mod.rs) -/

/-- The `u32` modulus: the shard counters in `PublicValues<u32, u32>` are 32-bit. -/
def U32_MOD : Nat := 2 ^ 32

/-- Wrapping `u32` addition, as performed by `state.shard += 1` and
`state.execution_shard += 1`. -/
def u32add (a b : Nat) : Nat := (a + b) % U32_MOD

/-- The fields of `sp1_core::air::PublicValues<u32, u32>` that `worker_phase1` reads or
writes: the global shard index, the execution-shard index, the start/next program
counter, and the four address-space bitmap fields (each bitmap is embedded as one
opaque `Nat` aggregate, since `worker_phase1` only copies them wholesale). -/
structure PublicValues where
  shard : Nat := 0
  execution_shard : Nat := 0
  start_pc : Nat := 0
  next_pc : Nat := 0
  previous_init_addr_bits : Nat := 0
  last_init_addr_bits : Nat := 0
  previous_finalize_addr_bits : Nat := 0
  last_finalize_addr_bits : Nat := 0
  deriving DecidableEq, Repr

/-- `sp1_core::runtime::ExecutionRecord` restricted to the fields `worker_phase1`
inspects: the embedded `public_values` snapshot and the record's deferred events,
tracked by their count. -/
structure ExecutionRecord where
  public_values : PublicValues := {}
  deferredCount : Nat := 0
  deriving DecidableEq, Repr

/-- Modelled from the spec: `PublicValues::reset` (sp1_core, not under `src/`).
§4.2 seeds the running shard counters from the terminal `PublicValues` of the previous
checkpoints; the per-shard fields that the materializer recomputes from scratch
(the shard index and the program counters) restart from zero. -/
def PublicValues.reset (pv : PublicValues) : PublicValues :=
  { pv with shard := 0, start_pc := 0, next_pc := 0 }

/-- The loop of worker/mod.rs lines 56-62: for each record that contains cpu events,
bump the running shard counter, copy the record's own execution-shard and program
counters into the running state, and overwrite the record's `public_values` with the
updated state.  Returns the final state and the rewritten records. -/
def updateCpuRecords (state : PublicValues) :
    List ExecutionRecord → PublicValues × List ExecutionRecord
  | [] => (state, [])
  | r :: rs =>
    let st := { state with
      shard := u32add state.shard 1,
      execution_shard := r.public_values.execution_shard,
      start_pc := r.public_values.start_pc,
      next_pc := r.public_values.next_pc }
    let rec' := updateCpuRecords st rs
    (rec'.1, { r with public_values := st } :: rec'.2)

/-- Modelled from the spec: `machine.generate_dependencies` (sp1_core stark machine, not
under `src/`) is the external collaborator of §6 that adds dependent lookup events to
each record of the batch in place; on the fields this model tracks (the embedded
`PublicValues` and the deferred-event count) it acts as the identity. -/
def generate_dependencies (records : List ExecutionRecord) : List ExecutionRecord :=
  records

/-- Modelled from the spec: `ExecutionRecord::defer` (sp1_core, not under `src/`) drains
the record's deferred events and returns them; deferred events are tracked by count. -/
def ExecutionRecord.defer (r : ExecutionRecord) : ExecutionRecord × Nat :=
  ({ r with deferredCount := 0 }, r.deferredCount)

/-- The loop of worker/mod.rs lines 73-75: `deferred.append(&mut record.defer())` for
each record; returns the drained records and the accumulated deferred-event count. -/
def deferLoop : List ExecutionRecord → List ExecutionRecord × Nat
  | [] => ([], 0)
  | r :: rs =>
    let d := r.defer
    let rest := deferLoop rs
    (d.1 :: rest.1, d.2 + rest.2)

/-- The total deferred-event count of a batch of records. -/
def totalDeferred (records : List ExecutionRecord) : Nat :=
  (records.map (fun r => r.deferredCount)).sum

/-- Modelled from the spec: `ExecutionRecord::split` (sp1_core, not under `src/`).
§4.2 step 5: when `is_last_checkpoint` holds, every accumulated deferred event is
flushed into one or more new records regardless of size, leaving the accumulator
empty; otherwise only as much as the configured split threshold allows is flushed
(full threshold-sized chunks) and the remainder stays in the accumulator.  Returns the
event counts of the emitted records and the count left behind.  The embedded
`PublicValues` of an emitted record — apart from the address bitmaps that the caller
copies afterwards — are not specified by the spec and are modelled as zero. -/
def splitDeferred (is_last : Bool) (threshold n : Nat) : List Nat × Nat :=
  let full := List.replicate (n / threshold) threshold
  if is_last then
    (if n % threshold = 0 then full else full ++ [n % threshold], 0)
  else
    (full, n % threshold)

/-- The loop of worker/mod.rs lines 86-94: for each deferred-only record, bump the
running shard counter, copy the record's address bitmaps into the running state, slide
the program-counter window (`start_pc = next_pc`), and overwrite the record's
`public_values` with the updated state. -/
def updateDeferredRecords (state : PublicValues) :
    List ExecutionRecord → PublicValues × List ExecutionRecord
  | [] => (state, [])
  | r :: rs =>
    let st := { state with
      shard := u32add state.shard 1,
      previous_init_addr_bits := r.public_values.previous_init_addr_bits,
      last_init_addr_bits := r.public_values.last_init_addr_bits,
      previous_finalize_addr_bits := r.public_values.previous_finalize_addr_bits,
      last_finalize_addr_bits := r.public_values.last_finalize_addr_bits,
      start_pc := state.next_pc }
    let rec' := updateDeferredRecords st rs
    (rec'.1, { r with public_values := st } :: rec'.2)

/-- The initial running state of `worker_phase1` (worker/mod.rs lines 33-35):
`state = public_values.reset()` followed by `state.shard = idx * shards_in_checkpoint`
(a `u32` product). -/
def workerInitState (B idx : Nat) (public_values : PublicValues) : PublicValues :=
  { public_values.reset with shard := idx * B % U32_MOD }

/-- `worker_phase1` (worker/mod.rs lines 21-107), as a function of the shard batch size
`B = core_opts.shard_batch_size`, the checkpoint index `idx`, the `is_last_checkpoint`
flag, the deferred split threshold, the seeding `public_values`, and the records that
`trace_checkpoint` reconstructed from the checkpoint.  Returns the ordered record list
(ordinary records first, then the split-off deferred records, exactly the order in
which the source commits to them and zips each with its commitment) and the final
running state.  Tracing, logging and the external `commit` call carry no information
tracked by this model. -/
def worker_phase1 (B idx : Nat) (is_last_checkpoint : Bool) (splitThreshold : Nat)
    (public_values : PublicValues) (records0 : List ExecutionRecord) :
    List ExecutionRecord × PublicValues :=
  let state0 := workerInitState B idx public_values
  let cpu := updateCpuRecords state0 records0
  let records1 := generate_dependencies cpu.2
  let drained := deferLoop records1
  let split := splitDeferred is_last_checkpoint splitThreshold drained.2
  let deferred0 := split.1.map (fun c => { public_values := {}, deferredCount := c })
  let state1 := if !is_last_checkpoint
    then { cpu.1 with execution_shard := u32add cpu.1.execution_shard 1 }
    else cpu.1
  let deferredUpd := updateDeferredRecords state1 deferred0
  (drained.1 ++ deferredUpd.2, deferredUpd.1)

/-- The phase-1 driver loop of src/examples/fibonacci/script/src/scenario/core_prove.rs
(lines 27-43): run `worker_phase1` on checkpoints `idx, idx+1, ...`, passing
`is_last_checkpoint` exactly for the final checkpoint and the same terminal
`public_values` to every invocation, and concatenate the returned record lists. -/
def runWorkers (B splitThreshold : Nat) (public_values : PublicValues) :
    Nat → List (List ExecutionRecord) → List ExecutionRecord
  | _, [] => []
  | idx, recs :: rest =>
    (worker_phase1 B idx rest.isEmpty splitThreshold public_values recs).1 ++
      runWorkers B splitThreshold public_values (idx + 1) rest

/-- The shard indices embedded in a list of records. -/
def shardsOf (records : List ExecutionRecord) : List Nat :=
  records.map (fun r => r.public_values.shard)

/-! ## The statement order of `worker_phase1`

The pure data-flow function above cannot express *when* each side effect happens, so
the order of the observable operations of worker/mod.rs is embedded separately as an
event trace, one event per source statement that touches a record. -/

/-- The observable operations of one `worker_phase1` invocation, in source order:
tracing the checkpoint (line 38), the per-record `record.public_values = state`
overwrite for the records with cpu events (lines 56-62), `generate_dependencies`
(lines 64-70), the per-record `record.defer()` drain (lines 73-75), the deferred
split (line 78), the conditional execution-shard bump (lines 82-84), the per-record
`record.public_values = state` overwrite for the deferred records (lines 86-94), and
the per-record commitment (lines 98-104). -/
inductive WorkerEv
  | traceCheckpoint
  | cpuPvOverwrite (i : Nat)
  | genDeps
  | deferEvents (i : Nat)
  | splitDeferredEv
  | execShardBump
  | deferredPvOverwrite (i : Nat)
  | commitRecord (i : Nat)
  deriving DecidableEq, Repr

/-- The event trace of one `worker_phase1` invocation that materializes `n` records
with cpu events and `d` split-off deferred records, in the statement order of
worker/mod.rs lines 38-104. -/
def worker_phase1_events (n d : Nat) (is_last_checkpoint : Bool) : List WorkerEv :=
  [.traceCheckpoint]
    ++ (List.range n).map .cpuPvOverwrite
    ++ [.genDeps]
    ++ (List.range n).map .deferEvents
    ++ [.splitDeferredEv]
    ++ (if !is_last_checkpoint then [.execShardBump] else [])
    ++ (List.range d).map .deferredPvOverwrite
    ++ (List.range (n + d)).map .commitRecord

/-- `a` occurs before `b` in `l` (comparing first occurrences; both must occur). -/
def precedes (a b : WorkerEv) (l : List WorkerEv) : Prop :=
  a ∈ l ∧ b ∈ l ∧ l.indexOf a < l.indexOf b

instance (a b : WorkerEv) (l : List WorkerEv) : Decidable (precedes a b l) := by
  unfold precedes
  infer_instance

/-! ## Checkpoint generation (src/examples/fibonacci/script/src/operator/mod.rs) -/

/-- Modelled from the spec: `sp1_core::utils::SP1CoreProverError` (not under `src/`),
the error type of §7(a): the variants `generate_checkpoints` constructs, with opaque
`Nat` payloads for the wrapped engine/io errors. -/
inductive SP1CoreProverError
  | ExecutionError (e : Nat)
  | IoError (e : Nat)
  deriving DecidableEq, Repr

/-- The runtime as `generate_checkpoints` observes it: the outcome of each successive
`runtime.execute_state()` call — either an execution error (opaque payload) or a
checkpoint (opaque `Nat` id) together with the `done` flag — plus the public-value
stream and the `public_values` of the records held in `runtime.records` at the moment
`done` is reported.  Saving a checkpoint to a temp file is infallible in this model
(the `IoError` path of the source wraps the host filesystem, outside the embedding). -/
structure RuntimeModel where
  steps : List (Except Nat (Nat × Bool))
  public_values_stream : List Nat
  recordPublicValues : List PublicValues
  deriving Repr

/-- The possible outcomes of `generate_checkpoints`: a normal return, an error return,
a panic (the `expect` on line 68 of operator/mod.rs), or exhaustion of the modelled
step list (the source loop would keep executing; no theorem below concerns it). -/
inductive GenCheckpointsOutcome
  | ok (stream : List Nat) (pv : PublicValues) (checkpoints : List Nat)
  | err (e : SP1CoreProverError)
  | panicked (msg : String)
  | outOfSteps
  deriving DecidableEq, Repr

/-- The loop of `generate_checkpoints` (operator/mod.rs lines 48-72): execute until the
next checkpoint boundary, propagating an engine error as
`SP1CoreProverError::ExecutionError` via `?`; save the checkpoint; on `done`, take the
`public_values` of the last runtime record (`expect("at least one record")`) and
return. -/
def generateCheckpointsLoop (rt : RuntimeModel) :
    List (Except Nat (Nat × Bool)) → List Nat → GenCheckpointsOutcome
  | [], _ => .outOfSteps
  | step :: rest, acc =>
    match step with
    | .error e => .err (.ExecutionError e)
    | .ok (cp, done) =>
      let acc' := acc ++ [cp]
      if done then
        match rt.recordPublicValues.getLast? with
        | none => .panicked "at least one record"
        | some pv => .ok rt.public_values_stream pv acc'
      else
        generateCheckpointsLoop rt rest acc'

/-- `generate_checkpoints` (operator/mod.rs lines 42-76). -/
def generate_checkpoints (rt : RuntimeModel) : GenCheckpointsOutcome :=
  generateCheckpointsLoop rt rt.steps []

/-! ## Claims about the opcode selector derivation (C3, C4, C6, C10) -/

/-- The selector vector `populate` produces for `instAUIPC`. -/
def selAUIPC : OpcodeSelectors := { imm_b := false, imm_c := true }

/-- The selector vector `populate` produces for `instADD0`. -/
def selADD0 : OpcodeSelectors :=
  { imm_b := false, imm_c := true, add_op := true, reg_0_write := true }

/-- C3, counterexample: the `AUIPC` opcode falls into no recognized category, yet
`populate` completes without error and sets no category flag — the claim that every
unrecognized opcode causes a fatal internal-consistency error fails on it. -/
theorem C3_counterexample :
    ¬ instAUIPC.inRecognizedCategory ∧
    OpcodeSelectors.populate {} instAUIPC = .ok selAUIPC ∧
    selAUIPC.noCategoryFlag :=
  ⟨by decide, rfl, by decide⟩

/-- C3 (amended): an opcode that the classifier treats as an ALU instruction but that
the ALU match of `populate` does not recognize is a fatal internal-consistency error
(panic); an opcode outside every recognized category instead falls through the
classifier silently, with no category flag set and no error. -/
theorem C3_amended_classifier (i : Instruction) :
    (i.is_alu_instruction = true → i.opcode.aluRecognized = false →
      OpcodeSelectors.populate {} i =
        .error "unexpected opcode in register instruction table processing") ∧
    (¬ i.inRecognizedCategory →
      ∃ s, OpcodeSelectors.populate {} i = .ok s ∧ s.noCategoryFlag) := by
  rcases i with ⟨op, a, b, c, ib, ic⟩
  constructor
  · intro halu hrec
    cases op <;> simp_all [Instruction.is_alu_instruction, Opcode.aluRecognized,
      OpcodeSelectors.populate]
  · intro hrec
    cases op <;>
      first
        | exact absurd (Or.inl rfl) hrec
        | exact absurd (Or.inr (Or.inl rfl)) hrec
        | exact absurd (Or.inr (Or.inr (Or.inl rfl))) hrec
        | exact absurd (Or.inr (Or.inr (Or.inr (Or.inl rfl)))) hrec
        | exact absurd (Or.inr (Or.inr (Or.inr (Or.inr (Or.inl rfl))))) hrec
        | exact absurd (Or.inr (Or.inr (Or.inr (Or.inr (Or.inr (Or.inl rfl)))))) hrec
        | exact absurd (Or.inr (Or.inr (Or.inr (Or.inr (Or.inr (Or.inr rfl)))))) hrec
        | (by_cases ha : a = 0
           · exact ⟨{ imm_b := ib, imm_c := ic, reg_0_write := true },
               by simp [OpcodeSelectors.populate, Instruction.is_alu_instruction,
                 Instruction.is_load_instruction, Instruction.is_store_instruction,
                 Instruction.is_branch_instruction, ha],
               by simp [OpcodeSelectors.noCategoryFlag]⟩
           · exact ⟨{ imm_b := ib, imm_c := ic },
               by simp [OpcodeSelectors.populate, Instruction.is_alu_instruction,
                 Instruction.is_load_instruction, Instruction.is_store_instruction,
                 Instruction.is_branch_instruction, ha],
               by simp [OpcodeSelectors.noCategoryFlag]⟩)

/-- C3, witness: the amended theorem at the concrete inputs `instDIV` (an ALU opcode
outside the recognized ALU match, which errors) and `instAUIPC` (outside every
category, which silently succeeds). -/
theorem C3_witness :
    OpcodeSelectors.populate {} instDIV =
      .error "unexpected opcode in register instruction table processing" ∧
    ∃ s, OpcodeSelectors.populate {} instAUIPC = .ok s ∧ s.noCategoryFlag :=
  ⟨(C3_amended_classifier instDIV).1 (by decide) (by decide),
   (C3_amended_classifier instAUIPC).2 (by decide)⟩

/-- C4, counterexample: `DIV` is a divide opcode classified as an ALU instruction, yet
`populate` does not complete without error — it hits the unrecognized-opcode panic. -/
theorem C4_counterexample :
    instDIV.is_alu_instruction = true ∧ instDIV.opcode.isDivide = true ∧
    OpcodeSelectors.populate {} instDIV =
      .error "unexpected opcode in register instruction table processing" :=
  ⟨by decide, by decide, rfl⟩

/-- C4 (amended): for every multiply opcode classified as an ALU instruction,
`populate` sets none of the arithmetic/logic family selector flags and completes
without error; a divide opcode classified as an ALU instruction instead hits the
unrecognized-opcode panic. -/
theorem C4_amended_mul_div (i : Instruction) :
    (i.opcode.isMultiply = true →
      ∃ s, OpcodeSelectors.populate {} i = .ok s ∧ s.add_op = false ∧ s.sub_op = false ∧
        s.bitwise_op = false ∧ s.shift_op = false ∧ s.lt_op = false) ∧
    (i.opcode.isDivide = true →
      OpcodeSelectors.populate {} i =
        .error "unexpected opcode in register instruction table processing") := by
  rcases i with ⟨op, a, b, c, ib, ic⟩
  constructor
  · intro hm
    cases op <;> simp [Opcode.isMultiply] at hm
    all_goals
      by_cases ha : a = 0
      case pos => exact ⟨{ imm_b := ib, imm_c := ic, reg_0_write := true },
        by simp [OpcodeSelectors.populate, Instruction.is_alu_instruction, ha], by simp⟩
      case neg => exact ⟨{ imm_b := ib, imm_c := ic },
        by simp [OpcodeSelectors.populate, Instruction.is_alu_instruction, ha], by simp⟩
  · intro hd
    cases op <;> simp [Opcode.isDivide] at hd
    all_goals
      simp [OpcodeSelectors.populate, Instruction.is_alu_instruction]

/-- C4, witness: the amended theorem at the concrete inputs `instMUL` and `instDIV`. -/
theorem C4_witness :
    (∃ s, OpcodeSelectors.populate {} instMUL = .ok s ∧ s.add_op = false ∧
      s.sub_op = false ∧ s.bitwise_op = false ∧ s.shift_op = false ∧ s.lt_op = false) ∧
    OpcodeSelectors.populate {} instDIV =
      .error "unexpected opcode in register instruction table processing" :=
  ⟨(C4_amended_mul_div instMUL).1 (by decide), (C4_amended_mul_div instDIV).2 (by decide)⟩

/-- C6: whenever `populate` succeeds, the produced selector vector has `reg_0_write`
set exactly when the destination register `op_a` is register 0 and the instruction is
neither a branch, nor a store, nor the no-op (`UNIMP`). -/
theorem C6_reg_0_write (i : Instruction) (s : OpcodeSelectors)
    (h : OpcodeSelectors.populate {} i = .ok s) :
    (s.reg_0_write = true ↔
      (i.op_a = 0 ∧ i.is_branch_instruction = false ∧ i.is_store_instruction = false ∧
        i.opcode ≠ .UNIMP)) := by
  rcases i with ⟨op, a, b, c, ib, ic⟩
  cases op <;>
    by_cases ha : a = 0 <;>
      simp_all [OpcodeSelectors.populate, Instruction.is_alu_instruction,
        Instruction.is_load_instruction, Instruction.is_store_instruction,
        Instruction.is_branch_instruction] <;>
      rw [← h]

/-- C6, witness: the theorem at the concrete instruction `instADD0` (an `ADD` whose
destination is register 0), whose selector vector has `reg_0_write` set. -/
theorem C6_witness :
    selADD0.reg_0_write = true ↔
      (instADD0.op_a = 0 ∧ instADD0.is_branch_instruction = false ∧
        instADD0.is_store_instruction = false ∧ instADD0.opcode ≠ Opcode.UNIMP) :=
  C6_reg_0_write instADD0 selADD0 rfl

/-- C10: no code path of `populate` sets the `auipc` selector field — every successful
run leaves it at the value it started with — and an `AUIPC` instruction produces a
selector vector with no category flag set while raising no error. -/
theorem C10_auipc_never_set :
    (∀ (s0 : OpcodeSelectors) (i : Instruction) (s : OpcodeSelectors),
      OpcodeSelectors.populate s0 i = .ok s → s.auipc = s0.auipc) ∧
    (∀ i : Instruction, i.opcode = .AUIPC →
      ∃ s, OpcodeSelectors.populate {} i = .ok s ∧ s.noCategoryFlag) := by
  constructor
  · intro s0 i s h
    rcases i with ⟨op, a, b, c, ib, ic⟩
    cases op <;>
      simp [OpcodeSelectors.populate, Instruction.is_alu_instruction,
        Instruction.is_load_instruction, Instruction.is_store_instruction,
        Instruction.is_branch_instruction] at h <;>
      first
        | (split_ifs at h <;>
            first
              | (injection h with h2; rw [← h2])
              | rw [← h])
        | (injection h with h2; rw [← h2])
        | rw [← h]
  · intro i hop
    rcases i with ⟨op, a, b, c, ib, ic⟩
    cases hop
    by_cases ha : a = 0
    · exact ⟨{ imm_b := ib, imm_c := ic, reg_0_write := true },
        by simp [OpcodeSelectors.populate, Instruction.is_alu_instruction,
          Instruction.is_load_instruction, Instruction.is_store_instruction,
          Instruction.is_branch_instruction, ha],
        by simp [OpcodeSelectors.noCategoryFlag]⟩
    · exact ⟨{ imm_b := ib, imm_c := ic },
        by simp [OpcodeSelectors.populate, Instruction.is_alu_instruction,
          Instruction.is_load_instruction, Instruction.is_store_instruction,
          Instruction.is_branch_instruction, ha],
        by simp [OpcodeSelectors.noCategoryFlag]⟩

/-- C10, witness: the theorem at the concrete instruction `instAUIPC`: its selector
vector keeps the default `auipc` value and carries no category flag. -/
theorem C10_witness :
    selAUIPC.auipc = ({} : OpcodeSelectors).auipc ∧
    ∃ s, OpcodeSelectors.populate {} instAUIPC = Except.ok s ∧ s.noCategoryFlag :=
  ⟨C10_auipc_never_set.1 {} instAUIPC selAUIPC rfl, C10_auipc_never_set.2 instAUIPC rfl⟩

/-! ## Claim C1: the order of dependency generation and public-value finalization -/

/-- The first occurrence of `f i` in `(List.range n).map f` is at position `i`, for an
injective `f`. -/
theorem indexOf_map_range (f : Nat → WorkerEv) (hf : Function.Injective f) :
    ∀ {n i : Nat}, i < n → ((List.range n).map f).indexOf (f i) = i := by
  intro n
  induction n with
  | zero => intro i hi; omega
  | succ m ih =>
    intro i hi
    rw [List.range_succ, List.map_append]
    rcases Nat.lt_or_ge i m with hlt | hge
    · rw [List.indexOf_append_of_mem (by simp; exact ⟨i, hlt, rfl⟩)]
      exact ih hlt
    · have him : i = m := by omega
      subst him
      rw [List.indexOf_append_of_not_mem
        (by simp; intro x hx hfx; exact absurd (hf hfx) (by omega))]
      simp [List.indexOf_cons_self]

/-- Position of the `i`-th ordinary-record public-value overwrite in the trace. -/
theorem ev_indexOf_cpu (n d i : Nat) (l : Bool) (hi : i < n) :
    (worker_phase1_events n d l).indexOf (.cpuPvOverwrite i) = 1 + i := by
  unfold worker_phase1_events
  simp only [List.append_assoc, List.singleton_append, List.cons_append, List.nil_append]
  have h1 : WorkerEv.traceCheckpoint ≠ WorkerEv.cpuPvOverwrite i := by simp
  have h2 : WorkerEv.cpuPvOverwrite i ∈ (List.range n).map WorkerEv.cpuPvOverwrite :=
    List.mem_map_of_mem _ (List.mem_range.mpr hi)
  rw [List.indexOf_cons_ne _ h1, List.indexOf_append_of_mem h2,
    indexOf_map_range _ (fun x y h => by injection h) hi]
  omega

/-- Position of the dependency-generation call in the trace. -/
theorem ev_indexOf_genDeps (n d : Nat) (l : Bool) :
    (worker_phase1_events n d l).indexOf .genDeps = 1 + n := by
  unfold worker_phase1_events
  simp only [List.append_assoc, List.singleton_append, List.cons_append, List.nil_append]
  have h1 : WorkerEv.traceCheckpoint ≠ WorkerEv.genDeps := by simp
  have h2 : WorkerEv.genDeps ∉ (List.range n).map WorkerEv.cpuPvOverwrite := by simp
  rw [List.indexOf_cons_ne _ h1, List.indexOf_append_of_not_mem h2, List.indexOf_cons_self]
  simp
  omega

/-- Position of the `j`-th deferred-record public-value assignment in the trace. -/
theorem ev_indexOf_defPv (n d j : Nat) (l : Bool) (hj : j < d) :
    (worker_phase1_events n d l).indexOf (.deferredPvOverwrite j) =
      2 * n + 3 + (if l then 0 else 1) + j := by
  have h1 : WorkerEv.traceCheckpoint ≠ WorkerEv.deferredPvOverwrite j := by simp
  have h2 : WorkerEv.deferredPvOverwrite j ∉ (List.range n).map WorkerEv.cpuPvOverwrite := by
    simp
  have h3 : WorkerEv.genDeps ≠ WorkerEv.deferredPvOverwrite j := by simp
  have h4 : WorkerEv.deferredPvOverwrite j ∉ (List.range n).map WorkerEv.deferEvents := by
    simp
  have h5 : WorkerEv.splitDeferredEv ≠ WorkerEv.deferredPvOverwrite j := by simp
  have h6 : WorkerEv.execShardBump ≠ WorkerEv.deferredPvOverwrite j := by simp
  have h7 : WorkerEv.deferredPvOverwrite j ∈ (List.range d).map WorkerEv.deferredPvOverwrite :=
    List.mem_map_of_mem _ (List.mem_range.mpr hj)
  have h8 := indexOf_map_range WorkerEv.deferredPvOverwrite (fun x y h => by injection h) hj
  unfold worker_phase1_events
  cases l <;>
    simp only [Bool.not_true, Bool.not_false, Bool.false_eq_true, eq_self_iff_true,
      if_true, if_false, ite_true, ite_false,
      List.append_assoc, List.singleton_append, List.cons_append, List.nil_append]
  · rw [List.indexOf_cons_ne _ h1, List.indexOf_append_of_not_mem h2,
      List.indexOf_cons_ne _ h3, List.indexOf_append_of_not_mem h4,
      List.indexOf_cons_ne _ h5, List.indexOf_cons_ne _ h6,
      List.indexOf_append_of_mem h7, h8]
    simp
    omega
  · rw [List.indexOf_cons_ne _ h1, List.indexOf_append_of_not_mem h2,
      List.indexOf_cons_ne _ h3, List.indexOf_append_of_not_mem h4,
      List.indexOf_cons_ne _ h5, List.indexOf_append_of_mem h7, h8]
    simp
    omega

/-- The `i`-th ordinary-record public-value overwrite occurs in the trace. -/
theorem ev_mem_cpu (n d i : Nat) (l : Bool) (hi : i < n) :
    WorkerEv.cpuPvOverwrite i ∈ worker_phase1_events n d l := by
  unfold worker_phase1_events
  simp [List.mem_append, List.mem_map, List.mem_range]
  omega

/-- The dependency-generation call occurs in the trace. -/
theorem ev_mem_genDeps (n d : Nat) (l : Bool) :
    WorkerEv.genDeps ∈ worker_phase1_events n d l := by
  unfold worker_phase1_events
  simp [List.mem_append]

/-- The `j`-th deferred-record public-value assignment occurs in the trace. -/
theorem ev_mem_defPv (n d j : Nat) (l : Bool) (hj : j < d) :
    WorkerEv.deferredPvOverwrite j ∈ worker_phase1_events n d l := by
  unfold worker_phase1_events
  simp [List.mem_append, List.mem_map, List.mem_range]
  omega

/-- C1, counterexample: in a materialization with one cpu record, the dependency
generation call does not precede the per-record `record.public_values` overwrite —
the overwrite of the ordinary record's public values comes first. -/
theorem C1_counterexample :
    ¬ precedes .genDeps (.cpuPvOverwrite 0) (worker_phase1_events 1 0 false) := by decide

/-- C1 (amended): in every `worker_phase1` materialization, the per-record overwrite of
`record.public_values` for the records with cpu events precedes the dependency
generation call; dependency generation in turn precedes every public-value assignment
of the split-off deferred records. -/
theorem C1_amended_order (n d : Nat) (is_last : Bool) :
    (∀ i, i < n →
      precedes (.cpuPvOverwrite i) .genDeps (worker_phase1_events n d is_last)) ∧
    (∀ j, j < d →
      precedes .genDeps (.deferredPvOverwrite j) (worker_phase1_events n d is_last)) := by
  constructor
  · intro i hi
    refine ⟨ev_mem_cpu n d i is_last hi, ev_mem_genDeps n d is_last, ?_⟩
    rw [ev_indexOf_cpu n d i is_last hi, ev_indexOf_genDeps n d is_last]
    omega
  · intro j hj
    refine ⟨ev_mem_genDeps n d is_last, ev_mem_defPv n d j is_last hj, ?_⟩
    rw [ev_indexOf_genDeps n d is_last, ev_indexOf_defPv n d j is_last hj]
    cases is_last <;> simp <;> omega

/-- C1, witness: the amended theorem on a materialization with one cpu record and one
deferred record. -/
theorem C1_witness :
    precedes (.cpuPvOverwrite 0) .genDeps (worker_phase1_events 1 1 false) ∧
    precedes .genDeps (.deferredPvOverwrite 0) (worker_phase1_events 1 1 false) :=
  ⟨(C1_amended_order 1 1 false).1 0 (by decide), (C1_amended_order 1 1 false).2 0 (by decide)⟩

/-! ## Worker state lemmas, used by claims C2, C5 and C7 -/

/-- The cpu public-value loop rewrites records one-for-one. -/
theorem updateCpuRecords_length (st : PublicValues) (l : List ExecutionRecord) :
    (updateCpuRecords st l).2.length = l.length := by
  induction l generalizing st with
  | nil => rfl
  | cons r rs ih => simp [updateCpuRecords, ih]

/-- The cpu public-value loop assigns the consecutive shard indices
`st.shard + 1, …, st.shard + l.length` and leaves the counter at `st.shard + l.length`,
provided the counter does not wrap. -/
theorem updateCpuRecords_shards (st : PublicValues) (l : List ExecutionRecord)
    (h : st.shard + l.length < U32_MOD) :
    shardsOf (updateCpuRecords st l).2 = List.range' (st.shard + 1) l.length ∧
    (updateCpuRecords st l).1.shard = st.shard + l.length := by
  induction l generalizing st with
  | nil => simp [updateCpuRecords, shardsOf]
  | cons r rs ih =>
    have hlen : st.shard + 1 + rs.length < U32_MOD := by
      simp only [List.length_cons] at h
      omega
    have hu : u32add st.shard 1 = st.shard + 1 := by
      unfold u32add
      exact Nat.mod_eq_of_lt (by omega)
    obtain ⟨h1, h2⟩ := ih { st with
      shard := u32add st.shard 1,
      execution_shard := r.public_values.execution_shard,
      start_pc := r.public_values.start_pc,
      next_pc := r.public_values.next_pc } (by simpa [hu] using hlen)
    simp only [hu] at h1 h2
    simp only [updateCpuRecords, shardsOf, List.map_cons, List.length_cons, hu]
    rw [List.range'_succ]
    constructor
    · rw [shardsOf] at h1
      rw [h1]
    · rw [h2]
      omega

/-- The deferred public-value loop assigns the consecutive shard indices
`st.shard + 1, …, st.shard + l.length`, provided the counter does not wrap. -/
theorem updateDeferredRecords_shards (st : PublicValues) (l : List ExecutionRecord)
    (h : st.shard + l.length < U32_MOD) :
    shardsOf (updateDeferredRecords st l).2 = List.range' (st.shard + 1) l.length ∧
    (updateDeferredRecords st l).1.shard = st.shard + l.length := by
  induction l generalizing st with
  | nil => simp [updateDeferredRecords, shardsOf]
  | cons r rs ih =>
    have hlen : st.shard + 1 + rs.length < U32_MOD := by
      simp only [List.length_cons] at h
      omega
    have hu : u32add st.shard 1 = st.shard + 1 := by
      unfold u32add
      exact Nat.mod_eq_of_lt (by omega)
    obtain ⟨h1, h2⟩ := ih { st with
      shard := u32add st.shard 1,
      previous_init_addr_bits := r.public_values.previous_init_addr_bits,
      last_init_addr_bits := r.public_values.last_init_addr_bits,
      previous_finalize_addr_bits := r.public_values.previous_finalize_addr_bits,
      last_finalize_addr_bits := r.public_values.last_finalize_addr_bits,
      start_pc := st.next_pc } (by simpa [hu] using hlen)
    simp only [hu] at h1 h2
    simp only [updateDeferredRecords, shardsOf, List.map_cons, List.length_cons, hu]
    rw [List.range'_succ]
    constructor
    · rw [shardsOf] at h1
      rw [h1]
    · rw [h2]
      omega

/-- The deferred public-value loop rewrites records one-for-one. -/
theorem updateDeferredRecords_length (st : PublicValues) (l : List ExecutionRecord) :
    (updateDeferredRecords st l).2.length = l.length := by
  induction l generalizing st with
  | nil => rfl
  | cons r rs ih => simp [updateDeferredRecords, ih]

/-- The deferred public-value loop never touches the execution-shard counter. -/
theorem updateDeferredRecords_execution_shard (st : PublicValues)
    (l : List ExecutionRecord) :
    (updateDeferredRecords st l).1.execution_shard = st.execution_shard := by
  induction l generalizing st with
  | nil => rfl
  | cons r rs ih => simp [updateDeferredRecords, ih]

/-- Draining deferred events preserves each record's public values and the record
count, and accumulates exactly the total deferred-event count. -/
theorem deferLoop_spec (l : List ExecutionRecord) :
    (deferLoop l).1.map (fun r => r.public_values) = l.map (fun r => r.public_values) ∧
    (deferLoop l).1.length = l.length ∧
    (deferLoop l).2 = totalDeferred l := by
  induction l with
  | nil => simp [deferLoop, totalDeferred]
  | cons r rs ih =>
    simp only [deferLoop, ExecutionRecord.defer, List.map_cons, List.length_cons,
      totalDeferred, List.sum_cons]
    refine ⟨by rw [ih.1], by rw [ih.2.1], by rw [ih.2.2]; rfl⟩

/-- Records with equal public-value lists carry equal shard-index lists. -/
theorem shardsOf_congr {l₁ l₂ : List ExecutionRecord}
    (h : l₁.map (fun r => r.public_values) = l₂.map (fun r => r.public_values)) :
    shardsOf l₁ = shardsOf l₂ := by
  have h2 := congrArg (List.map (fun v : PublicValues => v.shard)) h
  simpa [shardsOf, List.map_map, Function.comp] using h2

/-- The cpu public-value loop does not change any record's deferred-event count. -/
theorem updateCpuRecords_totalDeferred (st : PublicValues) (l : List ExecutionRecord) :
    totalDeferred (updateCpuRecords st l).2 = totalDeferred l := by
  induction l generalizing st with
  | nil => rfl
  | cons r rs ih => simp [updateCpuRecords, totalDeferred] at ih ⊢; rw [ih]

/-- Shard indices distribute over record-list concatenation. -/
theorem shardsOf_append (l1 l2 : List ExecutionRecord) :
    shardsOf (l1 ++ l2) = shardsOf l1 ++ shardsOf l2 := by
  simp [shardsOf]

/-- One `worker_phase1` invocation on checkpoint `idx` emits
`recs.length + (number of split-off deferred chunks)` records carrying the consecutive
shard indices `idx * B + 1, …`, provided the shard counter does not wrap. -/
theorem worker_phase1_output (B idx t : Nat) (l : Bool) (pv : PublicValues)
    (recs : List ExecutionRecord)
    (h : idx * B + recs.length + (splitDeferred l t (totalDeferred recs)).1.length < U32_MOD) :
    (worker_phase1 B idx l t pv recs).1.length =
      recs.length + (splitDeferred l t (totalDeferred recs)).1.length ∧
    shardsOf (worker_phase1 B idx l t pv recs).1 =
      List.range' (idx * B + 1)
        (recs.length + (splitDeferred l t (totalDeferred recs)).1.length) := by
  have hs0 : (workerInitState B idx pv).shard = idx * B := by
    simp only [workerInitState]
    exact Nat.mod_eq_of_lt (by omega)
  obtain ⟨hc1, hc2⟩ := updateCpuRecords_shards (workerInitState B idx pv) recs
    (by rw [hs0]; omega)
  rw [hs0] at hc1 hc2
  obtain ⟨hd1, hd2, hd3⟩ := deferLoop_spec ((updateCpuRecords (workerInitState B idx pv) recs).2)
  have hdl : (deferLoop ((updateCpuRecords (workerInitState B idx pv) recs).2)).2 =
      totalDeferred recs := by
    rw [hd3, updateCpuRecords_totalDeferred]
  have hclen := updateCpuRecords_length (workerInitState B idx pv) recs
  have hsh := shardsOf_congr hd1
  rw [hc1] at hsh
  have hmerge : List.range' (idx * B + 1) recs.length ++
      List.range' (idx * B + recs.length + 1)
        (splitDeferred l t (totalDeferred recs)).1.length =
      List.range' (idx * B + 1)
        (recs.length + (splitDeferred l t (totalDeferred recs)).1.length) := by
    have harr : idx * B + recs.length + 1 = (idx * B + 1) + recs.length := by omega
    rw [harr, List.range'_append_1]
    exact congrArg (fun m => List.range' (idx * B + 1) m) (Nat.add_comm _ _)
  cases l
  case false =>
    have hst : ({ (updateCpuRecords (workerInitState B idx pv) recs).1 with
        execution_shard :=
          u32add (updateCpuRecords (workerInitState B idx pv) recs).1.execution_shard 1
        } : PublicValues).shard = idx * B + recs.length := hc2
    obtain ⟨he1, he2⟩ := updateDeferredRecords_shards
      { (updateCpuRecords (workerInitState B idx pv) recs).1 with
        execution_shard :=
          u32add (updateCpuRecords (workerInitState B idx pv) recs).1.execution_shard 1 }
      ((splitDeferred false t (totalDeferred recs)).1.map
        (fun c => { public_values := {}, deferredCount := c }))
      (by rw [hst, List.length_map]; omega)
    simp only [worker_phase1, generate_dependencies, Bool.not_false, Bool.not_true,
      Bool.false_eq_true, eq_self_iff_true, if_true, if_false, ite_true, ite_false, hdl]
    constructor
    · rw [List.length_append, hd2, hclen, updateDeferredRecords_length, List.length_map]
    · rw [shardsOf_append, hsh, he1, hst, List.length_map]
      exact hmerge
  case true =>
    obtain ⟨he1, he2⟩ := updateDeferredRecords_shards
      (updateCpuRecords (workerInitState B idx pv) recs).1
      ((splitDeferred true t (totalDeferred recs)).1.map
        (fun c => { public_values := {}, deferredCount := c }))
      (by rw [hc2, List.length_map]; omega)
    simp only [worker_phase1, generate_dependencies, Bool.not_false, Bool.not_true,
      Bool.false_eq_true, eq_self_iff_true, if_true, if_false, ite_true, ite_false, hdl]
    constructor
    · rw [List.length_append, hd2, hclen, updateDeferredRecords_length, List.length_map]
    · rw [shardsOf_append, hsh, he1, hc2, List.length_map]
      exact hmerge

/-- The number of records one `worker_phase1` invocation emits for a given input:
the cpu records plus the split-off deferred chunks. -/
def workerOutLen (t : Nat) (l : Bool) (recs : List ExecutionRecord) : Nat :=
  recs.length + (splitDeferred l t (totalDeferred recs)).1.length

/-- `worker_phase1` emits exactly `workerOutLen` records; the count is independent of
the checkpoint index and the seeding public values. -/
theorem worker_phase1_length (B idx t : Nat) (l : Bool) (pv : PublicValues)
    (recs : List ExecutionRecord) :
    (worker_phase1 B idx l t pv recs).1.length = workerOutLen t l recs := by
  cases l <;>
    simp only [worker_phase1, generate_dependencies, Bool.not_false, Bool.not_true,
      Bool.false_eq_true, eq_self_iff_true, if_true, if_false, ite_true, ite_false,
      workerOutLen] <;>
    rw [List.length_append, (deferLoop_spec _).2.1, updateCpuRecords_length,
      updateDeferredRecords_length, List.length_map, (deferLoop_spec _).2.2,
      updateCpuRecords_totalDeferred]

/-- Concatenating the records of successive `worker_phase1` invocations starting at
checkpoint `idx` yields the consecutive shard indices `idx * B + 1, …` provided
every checkpoint but the last emits exactly `B = shard_batch_size` records. -/
theorem runWorkers_shards (B t : Nat) (pv : PublicValues) :
    ∀ (inputs : List (List ExecutionRecord)) (idx : Nat),
      (∀ recs ∈ inputs.dropLast, workerOutLen t false recs = B) →
      idx * B + (runWorkers B t pv idx inputs).length < U32_MOD →
      shardsOf (runWorkers B t pv idx inputs) =
        List.range' (idx * B + 1) (runWorkers B t pv idx inputs).length := by
  intro inputs
  induction inputs with
  | nil => intro idx _ _; simp [runWorkers, shardsOf]
  | cons recs rest ih =>
    intro idx hfull hbound
    by_cases hrest : rest = []
    · subst hrest
      simp only [runWorkers, List.isEmpty_nil, List.append_nil] at hbound ⊢
      have hlen := worker_phase1_length B idx t true pv recs
      rw [workerOutLen] at hlen
      have hb : idx * B + recs.length +
          (splitDeferred true t (totalDeferred recs)).1.length < U32_MOD := by
        rw [hlen] at hbound
        omega
      obtain ⟨ho1, ho2⟩ := worker_phase1_output B idx t true pv recs hb
      rw [ho2, hlen]
    · have hne : rest.isEmpty = false := by
        cases rest
        · exact absurd rfl hrest
        · rfl
      have hdrop : (recs :: rest).dropLast = recs :: rest.dropLast :=
        List.dropLast_cons_of_ne_nil hrest
      have hlenW : (worker_phase1 B idx false t pv recs).1.length = B := by
        rw [worker_phase1_length]
        exact hfull recs (by rw [hdrop]; exact List.mem_cons_self _ _)
      have hWOL : workerOutLen t false recs = B := by
        rw [← worker_phase1_length B idx t false pv recs]
        exact hlenW
      have hlenTot : (runWorkers B t pv idx (recs :: rest)).length =
          B + (runWorkers B t pv (idx + 1) rest).length := by
        simp only [runWorkers, hne, List.length_append, hlenW]
      have hsucc : (idx + 1) * B = idx * B + B := by
        rw [Nat.succ_mul]
      have hbound' : (idx + 1) * B + (runWorkers B t pv (idx + 1) rest).length < U32_MOD := by
        rw [hsucc]
        rw [hlenTot] at hbound
        omega
      have hfull' : ∀ r ∈ rest.dropLast, workerOutLen t false r = B := by
        intro r hr
        exact hfull r (by rw [hdrop]; exact List.mem_cons_of_mem _ hr)
      have hrec := ih (idx + 1) hfull' hbound'
      have hb : idx * B + recs.length +
          (splitDeferred false t (totalDeferred recs)).1.length < U32_MOD := by
        have hWlen : recs.length + (splitDeferred false t (totalDeferred recs)).1.length = B :=
          hWOL
        rw [hlenTot] at hbound
        omega
      obtain ⟨ho1, ho2⟩ := worker_phase1_output B idx t false pv recs hb
      have hWlen2 : recs.length + (splitDeferred false t (totalDeferred recs)).1.length = B :=
        hWOL
      simp only [runWorkers, hne]
      rw [shardsOf_append, ho2, hrec, List.length_append, hlenW, hWlen2, hsucc]
      have harr : idx * B + B + 1 = (idx * B + 1) + B := by omega
      rw [harr, List.range'_append_1]
      exact congrArg (fun m => List.range' (idx * B + 1) m) (Nat.add_comm _ _)

/-- C2, counterexample: with `shard_batch_size = 2` and two checkpoints that each
materialize a single record, the concatenated shard indices are `[1, 3]` — strictly
increasing, but with a gap, so not the claimed `1, 2, …` sequence. -/
theorem C2_counterexample :
    shardsOf (runWorkers 2 100 {} 0 [[{}], [{}]]) = [1, 3] ∧
    shardsOf (runWorkers 2 100 {} 0 [[{}], [{}]]) ≠
      List.range' 1 (runWorkers 2 100 {} 0 [[{}], [{}]]).length := by decide

/-- C2 (amended): the shard indices embedded in the records of successive
`worker_phase1` invocations (idx = 0, 1, …), concatenated in checkpoint order, form
the gapless strictly increasing sequence `1, 2, …, k` provided every checkpoint except
the last materializes exactly `shard_batch_size` records (cpu records plus split-off
deferred records) and the `u32` shard counter does not overflow.  The condition is not
vacuous: the counterexample shows a non-final checkpoint that materializes fewer
records leaving a gap. -/
theorem C2_amended_gapless (B t : Nat) (pv : PublicValues)
    (inputs : List (List ExecutionRecord))
    (hfull : ∀ recs ∈ inputs.dropLast, workerOutLen t false recs = B)
    (hbound : (runWorkers B t pv 0 inputs).length < U32_MOD) :
    shardsOf (runWorkers B t pv 0 inputs) =
      List.range' 1 (runWorkers B t pv 0 inputs).length := by
  have h := runWorkers_shards B t pv inputs 0 hfull (by simpa using hbound)
  simpa using h

/-- C2, witness: with `shard_batch_size = 1` and two single-record checkpoints the
concatenated shard indices are exactly `1, 2`. -/
theorem C2_witness :
    shardsOf (runWorkers 1 100 {} 0 [[{}], [{}]]) =
      List.range' 1 (runWorkers 1 100 {} 0 [[{}], [{}]]).length :=
  C2_amended_gapless 1 100 {} [[{}], [{}]] (by decide) (by decide)

/-- C5: after the ordinary records are processed, `worker_phase1` increments the
execution-shard counter exactly once more if and only if `is_last_checkpoint` is
false; on the final checkpoint the counter is returned unchanged. -/
theorem C5_execution_shard_bump (B idx t : Nat) (is_last : Bool) (pv : PublicValues)
    (recs : List ExecutionRecord) :
    (worker_phase1 B idx is_last t pv recs).2.execution_shard =
      if is_last then (updateCpuRecords (workerInitState B idx pv) recs).1.execution_shard
      else u32add (updateCpuRecords (workerInitState B idx pv) recs).1.execution_shard 1 := by
  cases is_last <;>
    simp only [worker_phase1, generate_dependencies, Bool.not_false, Bool.not_true,
      Bool.false_eq_true, eq_self_iff_true, if_true, if_false, ite_true, ite_false] <;>
    rw [updateDeferredRecords_execution_shard]

/-- C7: the deferred split on the final checkpoint leaves nothing in the accumulator
and flushes every accumulated deferred event into the emitted records; on a non-final
checkpoint whose accumulated deferred events are below the split threshold,
`worker_phase1` emits no deferred-only record (its output is exactly the cpu
records). -/
theorem C7_deferred_flush (B idx t : Nat) (pv : PublicValues)
    (recs : List ExecutionRecord) :
    ((splitDeferred true t (totalDeferred recs)).2 = 0 ∧
      (splitDeferred true t (totalDeferred recs)).1.sum = totalDeferred recs) ∧
    (totalDeferred recs < t →
      (worker_phase1 B idx false t pv recs).1.length = recs.length) := by
  constructor
  · constructor
    · simp [splitDeferred]
    · by_cases hr : totalDeferred recs % t = 0
      · simp [splitDeferred, hr, List.sum_replicate, smul_eq_mul]
        exact Nat.div_mul_cancel (Nat.dvd_of_mod_eq_zero hr)
      · simp [splitDeferred, hr, List.sum_replicate, smul_eq_mul, List.sum_append]
        have hdm := Nat.div_add_mod' (totalDeferred recs) t
        omega
  · intro hlt
    rw [worker_phase1_length, workerOutLen]
    have h0 : totalDeferred recs / t = 0 := Nat.div_eq_of_lt hlt
    simp [splitDeferred, h0]

/-- C7, witness: the theorem on one record with no deferred events and threshold 5. -/
theorem C7_witness :
    ((splitDeferred true 5 (totalDeferred [({} : ExecutionRecord)])).2 = 0 ∧
      (splitDeferred true 5 (totalDeferred [({} : ExecutionRecord)])).1.sum =
        totalDeferred [({} : ExecutionRecord)]) ∧
    (worker_phase1 2 0 false 5 {} [({} : ExecutionRecord)]).1.length =
      [({} : ExecutionRecord)].length :=
  ⟨(C7_deferred_flush 2 0 5 {} [{}]).1, (C7_deferred_flush 2 0 5 {} [{}]).2 (by decide)⟩

/-! ## Claims about checkpoint generation (C8, C9) -/

/-- If the checkpoint loop reaches an engine error after any number of successful
non-final steps, it returns `SP1CoreProverError::ExecutionError` regardless of the
accumulator and of any steps the engine could have produced afterwards. -/
theorem genLoop_error (rt : RuntimeModel) (e : Nat)
    (rest : List (Except Nat (Nat × Bool))) :
    ∀ (pre : List (Except Nat (Nat × Bool))),
      (∀ s ∈ pre, ∃ cp, s = .ok (cp, false)) → ∀ acc,
      generateCheckpointsLoop rt (pre ++ .error e :: rest) acc = .err (.ExecutionError e) := by
  intro pre
  induction pre with
  | nil => intro _ acc; rfl
  | cons s pre' ih =>
    intro hpre acc
    obtain ⟨cp, hcp⟩ := hpre s (List.mem_cons_self _ _)
    subst hcp
    simp only [List.cons_append, generateCheckpointsLoop, Bool.false_eq_true,
      eq_self_iff_true, if_true, if_false, ite_true, ite_false]
    exact ih (fun x hx => hpre x (List.mem_cons_of_mem _ hx)) _

/-- If the checkpoint loop reaches completion while the runtime holds no records, it
panics with the `expect` message, regardless of the accumulator. -/
theorem genLoop_done_noRecords (rt : RuntimeModel) (cp : Nat)
    (rest : List (Except Nat (Nat × Bool))) (hrec : rt.recordPublicValues = []) :
    ∀ (pre : List (Except Nat (Nat × Bool))),
      (∀ s ∈ pre, ∃ c, s = .ok (c, false)) → ∀ acc,
      generateCheckpointsLoop rt (pre ++ .ok (cp, true) :: rest) acc =
        .panicked "at least one record" := by
  intro pre
  induction pre with
  | nil =>
    intro _ acc
    simp [generateCheckpointsLoop, hrec]
  | cons s pre' ih =>
    intro hpre acc
    obtain ⟨c, hc⟩ := hpre s (List.mem_cons_self _ _)
    subst hc
    simp only [List.cons_append, generateCheckpointsLoop, Bool.false_eq_true,
      eq_self_iff_true, if_true, if_false, ite_true, ite_false]
    exact ih (fun x hx => hpre x (List.mem_cons_of_mem _ hx)) _

/-- C8: if the execution engine reports an error while advancing to the next
checkpoint boundary, `generate_checkpoints` returns the engine's error wrapped as
`SP1CoreProverError::ExecutionError`; no checkpoint list is returned, the result does
not depend on any later engine step (the failure is not retried), and the wrapped
engine payload is the context surfaced to the caller. -/
theorem C8_execution_error_aborts (rt : RuntimeModel)
    (pre rest : List (Except Nat (Nat × Bool))) (e : Nat)
    (hsteps : rt.steps = pre ++ .error e :: rest)
    (hpre : ∀ s ∈ pre, ∃ cp, s = .ok (cp, false)) :
    generate_checkpoints rt = .err (.ExecutionError e) := by
  unfold generate_checkpoints
  rw [hsteps]
  exact genLoop_error rt e rest pre hpre []

/-- C8, witness: a run whose second engine step fails with error 42 returns
`ExecutionError 42`, although a successful final step would have followed. -/
theorem C8_witness :
    generate_checkpoints
      ⟨[.ok (7, false), .error 42, .ok (9, true)], [1], [{}]⟩ =
      .err (.ExecutionError 42) :=
  C8_execution_error_aborts _ [.ok (7, false)] [.ok (9, true)] 42 rfl
    (by intro s hs; simp at hs; exact ⟨7, hs⟩)

/-- C9: when the engine signals completion (`done = true`) while the runtime's record
list is empty, `generate_checkpoints` panics via the `expect("at least one record")`
instead of returning an error value. -/
theorem C9_empty_records_panics (rt : RuntimeModel)
    (pre rest : List (Except Nat (Nat × Bool))) (cp : Nat)
    (hsteps : rt.steps = pre ++ .ok (cp, true) :: rest)
    (hpre : ∀ s ∈ pre, ∃ c, s = .ok (c, false))
    (hrec : rt.recordPublicValues = []) :
    generate_checkpoints rt = .panicked "at least one record" := by
  unfold generate_checkpoints
  rw [hsteps]
  exact genLoop_done_noRecords rt cp rest hrec pre hpre []

/-- C9, witness: a runtime that completes on its first step with no records panics. -/
theorem C9_witness :
    generate_checkpoints ⟨[.ok (7, true)], [], []⟩ = .panicked "at least one record" :=
  C9_empty_records_panics _ [] [] 7 rfl
    (by intro s hs; exact absurd hs (List.not_mem_nil s)) rfl

end SP1
